import Mathlib

/-!
Verification development for the MR-Box peripheral-board plugin
(`src/__init__.py` of `microdrop.mr-box-plugin`).

The plugin state and the board operations of `apply_step_options`,
`reset_board_state` and `open_board_connection` are embedded shallowly:
each board/serial call becomes an `Op` recorded in an execution trace,
state mutation is explicit on `PluginState`, Python exceptions become an
explicit raised flag (with a single optional injected fault position, plus
the intrinsic `AttributeError` of `step_label.lower()` on a `None` label),
and the `try/except/finally` of `apply_step_options` is mirrored by running
the body trace, then unconditionally appending the LED-restore and
experiment-log operations.

Numeric conventions: Python floats are modelled as rationals, wall-clock
time in the capacitance feedback loop as natural-number milliseconds
(the 5 second timeout becomes 5000), ADC register values as naturals.
-/

/-- State of the peripheral board held behind the `SerialProxy` handle
(`self.board`).  `closeRaises` models whether `board.close()` raises for
this handle (the source wraps `self.board.close()` in `try/except: pass`,
src lines 754-758).  `remoteMajor`/`remoteMinor` are the remote firmware
version components compared in `open_board_connection` (micro is ignored
by the source comparison, src lines 774-777). -/
structure BoardState where
  led1On : Bool
  led2On : Bool
  led1Brightness : ℚ
  led2Brightness : ℚ
  zstageDown : Bool
  pumpOn : Bool
  pumpFreq : ℚ
  potValue : ℤ
  shutterOpen : Bool
  closeRaises : Bool
  remoteMajor : Nat
  remoteMinor : Nat
deriving DecidableEq

/-- Plugin-level state: `self.board` (None or a handle), the `_user_warned`
one-shot flag, and the stored ADC self-calibration registers
`self.adc_gain_calibration` / `self.adc_offset_calibration`. -/
structure PluginState where
  board : Option BoardState
  userWarned : Bool
  adcGainCal : Option Nat
  adcOffsetCal : Option Nat
deriving DecidableEq

/-- `MrBoxPeripheralBoardPlugin.__init__` (src lines 377-398): no board,
user not warned, both calibration registers `None`. -/
def initialPluginState : PluginState :=
  { board := none, userWarned := false, adcGainCal := none, adcOffsetCal := none }

/-- The per-step options consumed by `apply_step_options` (the `StepFields`
form: `Magnet`, `Measure_PMT`, `Measurement_duration_(s)`, `Pump`,
`Pump_frequency_(hz)`, `Pump_duration_(s)`). -/
structure StepOptions where
  magnet : Bool
  measurePmt : Bool
  measurementDurationS : Nat
  pump : Bool
  pumpFrequencyHz : ℚ
  pumpDurationS : ℚ
deriving DecidableEq

/-- External inputs of one `apply_step_options` call: the `Use auto pump`
app value, the step label from the step-label plugin, the auto-pump target
capacitance `self.max_capacitance` and the DropBot capacitance sample
stream, the per-iteration wall-clock duration (milliseconds) of the fill
loop, the board self-calibration register contents read during a
background step, the 20 PMT reference-voltage reads, the configured
`pmt_control_voltage`, and whether `measure_dialog` returned data. -/
structure ApplyEnv where
  useAutoPump : Bool
  stepLabel : Option String
  maxCapacitance : ℚ
  caps : Nat → ℚ
  iterDur : Nat → Nat
  selfCalGain : Nat
  selfCalOffset : Nat
  refReads : Nat → ℚ
  pmtControlVoltage : ℚ
  measureData : Bool

/-- One board / DropBot / logging operation issued by the plugin.  Each
constructor corresponds to one call site in `src/__init__.py`. -/
inductive Op where
  | readEnvironment
  | zstageUp
  | zstageMoveTo (pos : Nat)
  | zstageHome
  | warnHomeUnverified
  | pumpFrequencySet (hz : ℚ)
  | pumpActivate
  | pumpDeactivate
  | sleepSec (sec : ℚ)
  | selectChannel
  | measureCapAvg (iter : Nat)
  | logCapacitance
  | setLed1 (v : Bool)
  | setLed2 (v : Bool)
  | setLed1Brightness (v : ℚ)
  | setLed2Brightness (v : ℚ)
  | adcBegin
  | pmtSetPot (v : ℤ)
  | inspectLabel
  | readSelfCalGain (v : Nat)
  | readSelfCalOffset (v : Nat)
  | warnMissingCalibration
  | setSelfCalGain (v : Nat)
  | setSelfCalOffset (v : Nat)
  | setSysOffsetCal
  | setSysGainCal
  | sendAdcCommand (c : Nat)
  | logAdcCalibration
  | readRefVoltage
  | warnControlVoltage
  | runMeasurement
  | recordSeries
  | addStepLog
  | pinMode (pin : Nat) (mode : Nat)
  | pmtCloseShutter
  | closeBoard
  | tryOpen
  | promptFirmware
  | flashFirmware
  | logConnected
  | warnNoConnection
deriving DecidableEq

/-- Apply a function to the board handle if present (Python attribute
assignment through `self.board`). -/
def modBoard (f : BoardState → BoardState) (s : PluginState) : PluginState :=
  { s with board := s.board.map f }

/-- State effect of one operation.  Operations with no modelled state
effect (logging, dialogs, ADC commands) leave the state unchanged. -/
def execOp (op : Op) (s : PluginState) : PluginState :=
  match op with
  | Op.zstageUp => modBoard (fun b => { b with zstageDown := false }) s
  | Op.zstageMoveTo _ => modBoard (fun b => { b with zstageDown := false }) s
  | Op.zstageHome => modBoard (fun b => { b with zstageDown := true }) s
  | Op.pumpActivate => modBoard (fun b => { b with pumpOn := true }) s
  | Op.pumpDeactivate => modBoard (fun b => { b with pumpOn := false }) s
  | Op.pumpFrequencySet hz => modBoard (fun b => { b with pumpFreq := hz }) s
  | Op.setLed1 v => modBoard (fun b => { b with led1On := v }) s
  | Op.setLed2 v => modBoard (fun b => { b with led2On := v }) s
  | Op.setLed1Brightness v => modBoard (fun b => { b with led1Brightness := v }) s
  | Op.setLed2Brightness v => modBoard (fun b => { b with led2Brightness := v }) s
  | Op.pmtSetPot v => modBoard (fun b => { b with potValue := v }) s
  | Op.pmtCloseShutter => modBoard (fun b => { b with shutterOpen := false }) s
  | Op.readSelfCalGain v => { s with adcGainCal := some v }
  | Op.readSelfCalOffset v => { s with adcOffsetCal := some v }
  | _ => s

/-- Run a list of operations for their state effects. -/
def execList (ops : List Op) (s : PluginState) : PluginState :=
  ops.foldl (fun st op => execOp op st) s

/-- Branch tag of an operation: 0 = z-stage (magnet branch), 1 = pump
branch, 2 = PMT/ADC branch, 3 = other (LED writes, logging, connection
management).  Used to show which branch of `apply_step_options` an
executed operation came from. -/
def opTag (op : Op) : Nat :=
  match op with
  | Op.zstageUp | Op.zstageMoveTo _ | Op.zstageHome => 0
  | Op.pumpFrequencySet _ | Op.pumpActivate | Op.pumpDeactivate
  | Op.sleepSec _ | Op.selectChannel | Op.measureCapAvg _
  | Op.logCapacitance => 1
  | Op.adcBegin | Op.pmtSetPot _ | Op.inspectLabel
  | Op.readSelfCalGain _ | Op.readSelfCalOffset _ | Op.warnMissingCalibration
  | Op.setSelfCalGain _ | Op.setSelfCalOffset _ | Op.setSysOffsetCal
  | Op.setSysGainCal | Op.sendAdcCommand _ | Op.logAdcCalibration
  | Op.readRefVoltage | Op.warnControlVoltage | Op.runMeasurement
  | Op.recordSeries => 2
  | _ => 3

/-- An operation is a z-stage command. -/
def isZstageOp (op : Op) : Bool := opTag op == 0

/-- Average of the 10 capacitance samples taken in iteration `i` of the
auto-pump fill loop (`sum(x) / len(x)` over
`dropbot_remote.measure_capacitance()` for `i in range(0, 10)`,
src lines 525-530), drawn from the sample stream `caps`. -/
def avgAt (caps : Nat → ℚ) (i : Nat) : ℚ :=
  ((List.range 10).map (fun j => caps (10 * i + j))).sum / 10

/-- Running average seen by the loop guard before iteration `j`:
`cap` starts at 0 and after iteration `i` equals `avgAt caps i`
(src lines 518, 530). -/
def capAt (caps : Nat → ℚ) : Nat → ℚ
  | 0 => 0
  | i + 1 => avgAt caps i

/-- `pump_time = end_time - start_time` (milliseconds) before iteration
`j`: each iteration `i` advances the wall clock by `dur i`
(src lines 520-522, 531-532). -/
def elapsedAt (dur : Nat → Nat) : Nat → Nat
  | 0 => 0
  | i + 1 => elapsedAt dur i + dur i

/-- Result of the auto-pump fill loop: iteration count on exit, final
running average `cap`, final elapsed wall clock (ms), final pump state,
and the board operations it issued. -/
structure FillResult where
  iters : Nat
  cap : ℚ
  elapsed : Nat
  pump : Bool
  ops : List Op
deriving DecidableEq

/-- The fill loop of the auto-pump branch (src lines 523-532):

`while ((cap < max_cp) and (pump_time < 5)): pump_activate();`
10 capacitance samples; `pump_deactivate(); cap = sum(x)/len(x);`
clock update.  The wall clock is in milliseconds (timeout `5` s =
`5000` ms); `fuel` bounds the recursion and `none` means the fuel ran
out before the guard failed (shown impossible for `fuel = 5001` when
every iteration takes at least 1 ms). -/
def fillLoopAux (caps : Nat → ℚ) (dur : Nat → Nat) (maxCp : ℚ) :
    Nat → Nat → ℚ → Nat → Bool → Option FillResult
  | 0, i, cap, t, pump =>
    if cap < maxCp ∧ t < 5000 then none else some ⟨i, cap, t, pump, []⟩
  | fuel + 1, i, cap, t, pump =>
    if cap < maxCp ∧ t < 5000 then
      (fillLoopAux caps dur maxCp fuel (i + 1) (avgAt caps i) (t + dur i) false).map
        (fun r => { r with
          ops := Op.pumpActivate :: Op.measureCapAvg i :: Op.pumpDeactivate :: r.ops })
    else some ⟨i, cap, t, pump, []⟩

/-- The fill loop entered as in the source: `cap = 0`, clock at 0,
iteration 0, with pump state `pump0` inherited from before the loop. -/
def fillLoop (caps : Nat → ℚ) (dur : Nat → Nat) (maxCp : ℚ) (pump0 : Bool) :
    Option FillResult :=
  fillLoopAux caps dur maxCp 5001 0 0 0 pump0

/-- Operations issued by the fill loop (empty in the fuel-exhaustion case,
which cannot occur when each iteration takes at least 1 ms). -/
def fillOps (env : ApplyEnv) : List Op :=
  match fillLoop env.caps env.iterDur env.maxCapacitance false with
  | some r => r.ops
  | none => []

/-- Magnet z-stage branch of `apply_step_options` (src lines 492-506):
engaged ⇒ `zstage.up()`; disengaged and not `zstage.is_down` ⇒
`zstage.move_to(1)` then `zstage.home()`; otherwise nothing. -/
def magnetOps (opts : StepOptions) (b : BoardState) : List Op :=
  if opts.magnet then [Op.zstageUp]
  else if b.zstageDown then []
  else [Op.zstageMoveTo 1, Op.zstageHome]

/-- Pump branch of `apply_step_options` (src lines 508-552).  Auto mode
(`Use auto pump`): `pump_frequency_set(8000)`, select DropBot channel 24,
then the fill loop, then log the achieved capacitance.  Manual mode
(`use_pump_dialog` is `False` in the source): set frequency, activate,
sleep for the step duration, deactivate. -/
def pumpOps (opts : StepOptions) (env : ApplyEnv) : List Op :=
  if opts.pump then
    if env.useAutoPump then
      [Op.pumpFrequencySet 8000, Op.selectChannel] ++ fillOps env ++ [Op.logCapacitance]
    else
      [Op.pumpFrequencySet opts.pumpFrequencyHz, Op.pumpActivate,
       Op.sleepSec opts.pumpDurationS, Op.pumpDeactivate]
  else []

/-- Python truthiness of `self.adc_gain_calibration` in
`if not self.adc_gain_calibration:` (src line 583): `None` and `0` are
falsy. -/
def calTruthy : Option Nat → Bool
  | none => false
  | some n => n != 0

/-- `int((pmt_control_voltage / 1100.) * 255)` (src lines 568-570);
`int()` truncation coincides with `Int.floor` for the non-negative
configured voltages. -/
def pmtDigipot (v : ℚ) : ℤ := Int.floor (v / 1100 * 255)

/-- Average of the 20 `pmt_reference_voltage()` reads (src lines 597-600). -/
def refAvg (env : ApplyEnv) : ℚ :=
  ((List.range 20).map env.refReads).sum / 20

/-- PMT/ADC branch of `apply_step_options` (src lines 554-657), entered
when `Measure_PMT` is set: LEDs off, `MAX11210_begin`, then
`step_label.lower()` (`Op.inspectLabel`, which raises on a `None` label,
so nothing after it is listed in that case); background steps set the
digipot and read the self-calibration registers, other steps either
rewrite the stored registers or warn that calibration is missing; then
system offset/gain calibration, ADC command `0b10001000` = 136, logging,
20 reference-voltage reads with a low-voltage warning, the measurement
dialog, and - when it returned data - recording of the series. -/
def pmtOps (opts : StepOptions) (env : ApplyEnv) (gainCal offsetCal : Option Nat) :
    List Op :=
  if opts.measurePmt then
    [Op.setLed1 false, Op.setLed2 false, Op.adcBegin, Op.inspectLabel] ++
    (match env.stepLabel with
     | none => []
     | some lbl =>
       (if lbl.toLower == "background" then
          [Op.pmtSetPot (pmtDigipot env.pmtControlVoltage),
           Op.readSelfCalGain env.selfCalGain, Op.readSelfCalOffset env.selfCalOffset]
        else if calTruthy gainCal then
          [Op.setSelfCalGain (gainCal.getD 0), Op.setSelfCalOffset (offsetCal.getD 0)]
        else [Op.warnMissingCalibration]) ++
       [Op.setSysOffsetCal, Op.setSysGainCal, Op.sendAdcCommand 136,
        Op.logAdcCalibration] ++
       List.replicate 20 Op.readRefVoltage ++
       (if refAvg env < (env.pmtControlVoltage - 100) / 1000 then
          [Op.warnControlVoltage]
        else []) ++
       [Op.runMeasurement] ++
       (if env.measureData then [Op.recordSeries] else []))
  else []

/-- The body of the single `try:` of `apply_step_options` (src lines
491-657): magnet branch, then pump branch, then PMT branch, in one
protected region. -/
def tryBody (opts : StepOptions) (env : ApplyEnv) (b : BoardState)
    (gainCal offsetCal : Option Nat) : List Op :=
  magnetOps opts b ++ pumpOps opts env ++ pmtOps opts env gainCal offsetCal

/-- Whether the operation at absolute position `k` raises: either the
injected fault sits at `k`, or the operation is `step_label.lower()`
with a `None` label (`AttributeError`, src line 564). -/
def raisesAt (fault : Option Nat) (label : Option String) (k : Nat) (op : Op) : Bool :=
  fault == some k || (op == Op.inspectLabel && label.isNone)

/-- Execute a list of operations from absolute position `k`, stopping at
the first raising operation.  Returns the final state, the executed
operations, and whether an exception was raised (a raising operation
takes no effect and is not recorded). -/
def runOps (fault : Option Nat) (label : Option String) :
    List Op → Nat → PluginState → PluginState × List Op × Bool
  | [], _, s => (s, [], false)
  | op :: rest, k, s =>
    if raisesAt fault label k op then (s, [], true)
    else
      let r := runOps fault label rest (k + 1) (execOp op s)
      (r.1, op :: r.2.1, r.2.2)

/-- Result of one `apply_step_options` call: final plugin state, the
operation trace, whether the `except` clause caught an exception, and
whether the "board not connected" warning was emitted. -/
structure ApplyResult where
  state : PluginState
  trace : List Op
  raised : Bool
  warnedNotConnected : Bool
deriving DecidableEq

/-- `apply_step_options` (src lines 439-671).  With a board: log
environment data (its own `try/except`, never propagating), save
`led1.on` / `led2.on`, run the `try:` body with an optional injected
fault, then the `finally:` restores both LEDs to the saved values and
adds the step log.  Without a board: warn once until `_user_warned` is
set, then do nothing. -/
def apply_step_options (fault : Option Nat) (opts : StepOptions) (env : ApplyEnv)
    (s : PluginState) : ApplyResult :=
  match s.board with
  | some b =>
    let r := runOps fault env.stepLabel
      (tryBody opts env b s.adcGainCal s.adcOffsetCal) 0 s
    { state := execOp (Op.setLed2 b.led2On) (execOp (Op.setLed1 b.led1On) r.1),
      trace := Op.readEnvironment ::
        r.2.1 ++ [Op.setLed1 b.led1On, Op.setLed2 b.led2On, Op.addStepLog],
      raised := r.2.2,
      warnedNotConnected := false }
  | none =>
    if s.userWarned then
      { state := s, trace := [], raised := false, warnedNotConnected := false }
    else
      { state := { s with userWarned := true }, trace := [], raised := false,
        warnedNotConnected := true }

/-- `reset_board_state` (src lines 400-437): clear `_user_warned` first;
return if no board; otherwise home the z-stage (warn if still not down),
quiesce pump and PMT, restart/calibrate the ADC, restore LED brightness
from the app values (`update_leds`), and turn both LEDs on. -/
def reset_board_state (led1b led2b : ℚ) (s : PluginState) : PluginState × List Op :=
  let s0 := { s with userWarned := false }
  match s0.board with
  | none => (s0, [])
  | some b =>
    let afterHome := { b with zstageDown := true }
    let ops :=
      [Op.zstageHome] ++
      (if afterHome.zstageDown then [] else [Op.warnHomeUnverified]) ++
      [Op.pumpDeactivate, Op.pumpFrequencySet 0, Op.pinMode 9 1,
       Op.pmtCloseShutter, Op.pmtSetPot 0, Op.adcBegin,
       Op.setLed1Brightness led1b, Op.setLed2Brightness led2b,
       Op.setLed1 true, Op.setLed2 true]
    (execList ops s0, ops)

/-- Outcome of one connection attempt's protected region (src lines
760-794).  The `except (serial.SerialException, IOError)` at line 794
covers the whole attempt, and `self.board = mrbox.SerialProxy()`
(line 761) is assigned *before* the serial version reads (lines 763-766)
and the port/properties reads (lines 787-791), so a link error can strike
either at construction - leaving `self.board` as the close step left it -
or after the assignment - leaving the fresh (dead) handle installed.  The
post-assignment failure is placed at the version-read stage, before the
firmware prompt; later failure points differ only in which log/prompt
calls already happened, not in the state left behind. -/
inductive AttemptOutcome where
  | linkErrorAtOpen
  | linkErrorAfterOpen (b : BoardState)
  | success (b : BoardState)
deriving DecidableEq

/-- Whether the attempt failed with a caught link error (either form). -/
def AttemptOutcome.failed : AttemptOutcome → Bool
  | AttemptOutcome.success _ => false
  | _ => true

/-- Parameters of one `open_board_connection` call: the outcome of
attempt `i`, the host driver version, and the answer to the
firmware-mismatch confirmation dialog. -/
structure OpenParams where
  proxyResult : Nat → AttemptOutcome
  hostMajor : Nat
  hostMinor : Nat
  promptYes : Bool

/-- The `try: self.board.close(); self.board = None; except: pass` at the
top of each connection attempt (src lines 754-758).  With no handle,
`None.close()` raises `AttributeError` before the assignment; with a
handle whose `close()` raises, the assignment is likewise skipped and the
stale handle stays; otherwise the handle is closed and cleared. -/
def closeStep (s : PluginState) : PluginState × List Op :=
  match s.board with
  | none => (s, [])
  | some b => if b.closeRaises then (s, []) else ({ s with board := none }, [Op.closeBoard])

/-- One attempt of `open_board_connection` (src lines 753-795): close any
stale handle, then the protected region: construct `SerialProxy`, read
and compare the major/minor versions (micro differences are compatible),
on mismatch prompt and optionally flash, then log the established
connection.  A `SerialException`/`IOError` anywhere in that region is
caught at line 794 and answered with `time.sleep(1)`; if it struck before
the `self.board` assignment the handle is whatever the close step left,
if after, the fresh dead handle remains installed
(`AttemptOutcome.linkErrorAfterOpen`). -/
def openAttempt (p : OpenParams) (i : Nat) (s : PluginState) :
    PluginState × List Op × Bool :=
  let c := closeStep s
  match p.proxyResult i with
  | AttemptOutcome.linkErrorAtOpen =>
    (c.1, c.2 ++ [Op.tryOpen, Op.sleepSec 1], false)
  | AttemptOutcome.linkErrorAfterOpen b =>
    ({ c.1 with board := some b }, c.2 ++ [Op.tryOpen, Op.sleepSec 1], false)
  | AttemptOutcome.success b =>
    let fwOps :=
      if b.remoteMajor = p.hostMajor ∧ b.remoteMinor = p.hostMinor then []
      else Op.promptFirmware :: (if p.promptYes then [Op.flashFirmware] else [])
    ({ c.1 with board := some b }, c.2 ++ [Op.tryOpen] ++ fwOps ++ [Op.logConnected], true)

/-- `open_board_connection` (src lines 740-799): `retry_count = 2`
attempts; on the first success, stop; if both fail, log the
"could not be established" warning (`for/else`).  All failures are
caught, so the call always returns normally. -/
def open_board_connection (p : OpenParams) (s : PluginState) :
    PluginState × List Op :=
  let a0 := openAttempt p 0 s
  if a0.2.2 then (a0.1, a0.2.1)
  else
    let a1 := openAttempt p 1 a0.1
    if a1.2.2 then (a1.1, a0.2.1 ++ a1.2.1)
    else (a1.1, a0.2.1 ++ a1.2.1 ++ [Op.warnNoConnection])

/-- Modelled from the spec: the ADC saturation threshold
`2^24 - 2^19` of the gain search (spec section 4.4; the
AutoGainCalibrator implementation lives in the external
`mr_box_peripheral_board` measurement utilities, not under `src/`). -/
def saturationThreshold : ℚ := 2 ^ 24 - 2 ^ 19

/-- Modelled from the spec: the 10-read average the gain search computes
at gain `g` ("take 10 reads at a fixed rate; average"); `reads g` is the
list of the 10 ADC reads taken at gain `g`. -/
def readsAvg (reads : Nat → List Nat) (g : Nat) : ℚ :=
  (((reads g).map (fun n => (n : ℚ))).sum) / 10

/-- Modelled from the spec: one round of the gain-search loop of
`select_gain` (spec section 4.4): if the average is below the saturation
threshold, keep the current gain with `overrange = false`; if the gain
has reached 1, stop, with `overrange` set iff the average is at least
`2^24 - 1`; otherwise halve the gain and repeat.  `fuel` bounds the
recursion (`none` = fuel exhausted; shown unreachable from gain 16 with
fuel 5). -/
def selectGainAux (avg : Nat → ℚ) : Nat → Nat → Option (Nat × Bool)
  | 0, _ => none
  | fuel + 1, g =>
    if avg g < saturationThreshold then some (g, false)
    else if g ≤ 1 then some (g, decide ((2 ^ 24 - 1 : ℚ) ≤ avg g))
    else selectGainAux avg fuel (g / 2)

/-- Modelled from the spec: number of halving iterations the gain search
performs (those whose average is at or above the threshold and whose
gain is still above 1). -/
def selectGainHalvings (avg : Nat → ℚ) : Nat → Nat → Nat
  | 0, _ => 0
  | fuel + 1, g =>
    if avg g < saturationThreshold then 0
    else if g ≤ 1 then 0
    else 1 + selectGainHalvings avg fuel (g / 2)

/-- Modelled from the spec: `select_gain() -> (gain, overrange)`, started
at the maximum gain 16 (spec section 4.4). -/
def select_gain (reads : Nat → List Nat) : Option (Nat × Bool) :=
  selectGainAux (readsAvg reads) 5 16

/-! ### Concrete fixtures used by witnesses and counterexamples -/

/-- A connected board: LED 1 on, LED 2 off, z-stage homed, pump idle,
`close()` well-behaved, remote firmware version 0.0. -/
def b0 : BoardState :=
  { led1On := true, led2On := false, led1Brightness := 0, led2Brightness := 0,
    zstageDown := true, pumpOn := false, pumpFreq := 0, potValue := 0,
    shutterOpen := false, closeRaises := false, remoteMajor := 0, remoteMinor := 0 }

/-- Like `b0` but with the z-stage away from home. -/
def bUp : BoardState := { b0 with zstageDown := false }

/-- A stale handle whose `close()` raises. -/
def bStale : BoardState := { b0 with closeRaises := true }

/-- A benign environment: manual pump mode, a labelled step, inert
measurement sources. -/
def env0 : ApplyEnv :=
  { useAutoPump := false, stepLabel := some "sample", maxCapacitance := 0,
    caps := fun _ => 0, iterDur := fun _ => 1000, selfCalGain := 0,
    selfCalOffset := 0, refReads := fun _ => 0, pmtControlVoltage := 0,
    measureData := false }

/-- `env0` with no step label available. -/
def envNoLabel : ApplyEnv := { env0 with stepLabel := none }

/-- Step options with everything disabled. -/
def opts0 : StepOptions :=
  { magnet := false, measurePmt := false, measurementDurationS := 0,
    pump := false, pumpFrequencyHz := 0, pumpDurationS := 0 }

/-- Step options with pump (manual mode) and PMT measurement enabled,
magnet disengaged. -/
def opts1 : StepOptions :=
  { magnet := false, measurePmt := true, measurementDurationS := 10,
    pump := true, pumpFrequencyHz := 50, pumpDurationS := 1 }

/-- Connected plugin state over `b0`. -/
def s1 : PluginState :=
  { board := some b0, userWarned := false, adcGainCal := none, adcOffsetCal := none }

/-- Connected plugin state over `bUp`. -/
def sUp : PluginState := { s1 with board := some bUp }

/-- Disconnected state whose user has already been warned. -/
def sWarned : PluginState :=
  { board := none, userWarned := true, adcGainCal := none, adcOffsetCal := none }

/-- Disconnected state holding calibration values from an earlier session. -/
def sCal : PluginState :=
  { board := none, userWarned := false, adcGainCal := some 3, adcOffsetCal := some 4 }

/-- State holding a stale handle whose `close()` raises. -/
def sStale : PluginState :=
  { board := some bStale, userWarned := false, adcGainCal := none,
    adcOffsetCal := none }

/-- Connection parameters under which every attempt fails with a link
error at `SerialProxy()` construction. -/
def pFail : OpenParams :=
  { proxyResult := fun _ => AttemptOutcome.linkErrorAtOpen, hostMajor := 0,
    hostMinor := 0, promptYes := false }

/-- Connection parameters under which every attempt constructs a proxy
(`b0`) and then fails with a link error at the version read. -/
def pFailLate : OpenParams :=
  { proxyResult := fun _ => AttemptOutcome.linkErrorAfterOpen b0, hostMajor := 0,
    hostMinor := 0, promptYes := false }

/-- Connection parameters under which every attempt succeeds with a
version-compatible board. -/
def pOk : OpenParams :=
  { proxyResult := fun _ => AttemptOutcome.success b0, hostMajor := 0,
    hostMinor := 0, promptYes := false }

/-- Saturated ADC read stream: every gain sees ten full-scale reads. -/
def readsSat : Nat → List Nat := fun _ => List.replicate 10 (2 ^ 24)

/-! ### Basic lemmas about the execution machinery -/

theorem execOp_board_isSome (op : Op) (s : PluginState) :
    (execOp op s).board.isSome = s.board.isSome := by
  cases op <;> simp [execOp, modBoard]

theorem runOps_board_isSome (fault : Option Nat) (label : Option String) :
    ∀ (ops : List Op) (k : Nat) (s : PluginState),
      ((runOps fault label ops k s).1).board.isSome = s.board.isSome := by
  intro ops
  induction ops with
  | nil => intro k s; simp [runOps]
  | cons op rest ih =>
    intro k s
    simp only [runOps]
    by_cases h : raisesAt fault label k op = true
    · simp [h]
    · simp only [Bool.not_eq_true] at h
      simp [h, ih, execOp_board_isSome]

theorem led_after_restore (s : PluginState) (v1 v2 : Bool)
    (h : s.board.isSome = true) :
    ((execOp (Op.setLed2 v2) (execOp (Op.setLed1 v1) s)).board.map
        (fun b => b.led1On) = some v1) ∧
    ((execOp (Op.setLed2 v2) (execOp (Op.setLed1 v1) s)).board.map
        (fun b => b.led2On) = some v2) := by
  cases hb : s.board with
  | none => rw [hb] at h; simp at h
  | some b => simp [execOp, modBoard, hb]

theorem runOps_trace_take (fault : Option Nat) (label : Option String) :
    ∀ (ops : List Op) (k : Nat) (s : PluginState),
      ∃ n, (runOps fault label ops k s).2.1 = ops.take n := by
  intro ops
  induction ops with
  | nil => intro k s; exact ⟨0, rfl⟩
  | cons op rest ih =>
    intro k s
    simp only [runOps]
    by_cases h : raisesAt fault label k op = true
    · exact ⟨0, by simp [h]⟩
    · simp only [Bool.not_eq_true] at h
      obtain ⟨n, hn⟩ := ih (k + 1) (execOp op s)
      exact ⟨n + 1, by simp [h, hn]⟩

theorem runOps_append_no_raise (label : Option String) :
    ∀ (l₁ l₂ : List Op) (k : Nat) (s : PluginState),
      (∀ op ∈ l₁, op ≠ Op.inspectLabel ∨ label ≠ none) →
      runOps none label (l₁ ++ l₂) k s =
        ((runOps none label l₂ (k + l₁.length) (execList l₁ s)).1,
         l₁ ++ (runOps none label l₂ (k + l₁.length) (execList l₁ s)).2.1,
         (runOps none label l₂ (k + l₁.length) (execList l₁ s)).2.2) := by
  intro l₁
  induction l₁ with
  | nil => intro l₂ k s _; simp [execList]
  | cons op rest ih =>
    intro l₂ k s hno
    have hop : raisesAt none label k op = false := by
      unfold raisesAt
      rcases hno op (by simp) with h | h
      · have hb : (op == Op.inspectLabel) = false := by
          cases hcc : op == Op.inspectLabel
          · rfl
          · exact absurd (by simpa using hcc) h
        simp [hb]
      · have hb : label.isNone = false := by
          cases label
          · exact absurd rfl h
          · rfl
        simp [hb]
    have harg : k + 1 + rest.length = k + (op :: rest).length := by
      simp only [List.length_cons]
      omega
    have hexec : execList (op :: rest) s = execList rest (execOp op s) := by
      simp [execList]
    have ih' := ih l₂ (k + 1) (execOp op s) (fun o ho => hno o (List.mem_cons_of_mem _ ho))
    rw [harg] at ih'
    rw [hexec]
    simp only [List.cons_append, runOps, hop, Bool.false_eq_true, if_false,
      List.append_eq, ih']

theorem runOps_fault_at (label : Option String) :
    ∀ (l₁ : List Op) (op₂ : Op) (rest : List Op) (j : Nat) (s : PluginState),
      (∀ op ∈ l₁, op ≠ Op.inspectLabel ∨ label ≠ none) →
      runOps (some (j + l₁.length)) label (l₁ ++ op₂ :: rest) j s =
        (execList l₁ s, l₁, true) := by
  intro l₁
  induction l₁ with
  | nil =>
    intro op₂ rest j s _
    simp [runOps, raisesAt, execList]
  | cons op tail ih =>
    intro op₂ rest j s hno
    have hop : raisesAt (some (j + (op :: tail).length)) label j op = false := by
      unfold raisesAt
      have h1 : (some (j + (op :: tail).length) == some j) = false := by
        simp only [List.length_cons]
        simp [show j + (tail.length + 1) ≠ j by omega]
      rcases hno op (by simp) with h | h
      · have hb : (op == Op.inspectLabel) = false := by
          cases hcc : op == Op.inspectLabel
          · rfl
          · exact absurd (by simpa using hcc) h
        simp [h1, hb]
      · have hb : label.isNone = false := by
          cases label
          · exact absurd rfl h
          · rfl
        simp [h1, hb]
    have harg : j + (op :: tail).length = (j + 1) + tail.length := by
      simp only [List.length_cons]; omega
    rw [harg] at hop
    have hexec : execList (op :: tail) s = execList tail (execOp op s) := by
      simp [execList]
    have ih' := ih op₂ rest (j + 1) (execOp op s)
      (fun o ho => hno o (List.mem_cons_of_mem _ ho))
    rw [hexec]
    simp only [List.cons_append, runOps, hop, Bool.false_eq_true, if_false,
      List.append_eq, harg, ih']

theorem tag_magnetOps (opts : StepOptions) (b : BoardState) :
    ∀ op ∈ magnetOps opts b, opTag op = 0 := by
  intro op h
  unfold magnetOps at h
  split at h
  · simp only [List.mem_singleton] at h
    subst h; rfl
  · split at h
    · simp at h
    · simp only [List.mem_cons, List.mem_singleton, List.not_mem_nil, or_false] at h
      rcases h with h | h <;> (subst h; rfl)

theorem tag_fillLoopAux (caps : Nat → ℚ) (dur : Nat → Nat) (maxCp : ℚ) :
    ∀ (fuel i : Nat) (cap : ℚ) (t : Nat) (p : Bool) (r : FillResult),
      fillLoopAux caps dur maxCp fuel i cap t p = some r →
      ∀ op ∈ r.ops, opTag op = 1 := by
  intro fuel
  induction fuel with
  | zero =>
    intro i cap t p r h op hop
    unfold fillLoopAux at h
    split at h
    · simp at h
    · simp only [Option.some.injEq] at h
      subst h
      simp at hop
  | succ fuel ih =>
    intro i cap t p r h op hop
    unfold fillLoopAux at h
    split at h
    · rcases Option.map_eq_some'.mp h with ⟨r', hr', hmap⟩
      subst hmap
      simp only [List.mem_cons] at hop
      rcases hop with h1 | h1 | h1 | h1
      · subst h1; rfl
      · subst h1; rfl
      · subst h1; rfl
      · exact ih (i + 1) (avgAt caps i) (t + dur i) false r' hr' op h1
    · simp only [Option.some.injEq] at h
      subst h
      simp at hop

theorem tag_fillOps (env : ApplyEnv) : ∀ op ∈ fillOps env, opTag op = 1 := by
  intro op h
  unfold fillOps at h
  split at h
  case h_1 r hr => exact tag_fillLoopAux _ _ _ _ _ _ _ _ r hr op h
  case h_2 => simp at h

theorem tag_pumpOps (opts : StepOptions) (env : ApplyEnv) :
    ∀ op ∈ pumpOps opts env, opTag op = 1 := by
  intro op h
  unfold pumpOps at h
  split at h
  · split at h
    · rcases List.mem_append.mp h with h | h
      · rcases List.mem_append.mp h with h | h
        · simp only [List.mem_cons, List.mem_singleton, List.not_mem_nil,
            or_false] at h
          rcases h with h | h <;> (subst h; rfl)
        · exact tag_fillOps env op h
      · simp only [List.mem_singleton] at h
        subst h; rfl
    · simp only [List.mem_cons, List.mem_singleton, List.not_mem_nil,
        or_false] at h
      rcases h with h | h | h | h <;> (subst h; rfl)
  · simp at h

theorem tag_pmtOps_ne_zero (opts : StepOptions) (env : ApplyEnv)
    (gainCal offsetCal : Option Nat) :
    ∀ op ∈ pmtOps opts env gainCal offsetCal, opTag op ≠ 0 := by
  intro op h
  unfold pmtOps at h
  split at h
  · rcases List.mem_append.mp h with h | h
    · simp only [List.mem_cons, List.mem_singleton, List.not_mem_nil,
        or_false] at h
      rcases h with h | h | h | h <;> (subst h; simp [opTag])
    · rcases hl : env.stepLabel with _ | lbl
      · rw [hl] at h
        simp at h
      · rw [hl] at h
        rcases List.mem_append.mp h with h | h
        · rcases List.mem_append.mp h with h | h
          · rcases List.mem_append.mp h with h | h
            · rcases List.mem_append.mp h with h | h
              · rcases List.mem_append.mp h with h | h
                · split at h
                  · simp only [List.mem_cons, List.mem_singleton,
                      List.not_mem_nil, or_false] at h
                    rcases h with h | h | h <;> (subst h; simp [opTag])
                  · split at h
                    · simp only [List.mem_cons, List.mem_singleton,
                        List.not_mem_nil, or_false] at h
                      rcases h with h | h <;> (subst h; simp [opTag])
                    · simp only [List.mem_singleton] at h
                      subst h; simp [opTag]
                · simp only [List.mem_cons, List.mem_singleton,
                    List.not_mem_nil, or_false] at h
                  rcases h with h | h | h | h <;> (subst h; simp [opTag])
              · have := List.eq_of_mem_replicate h
                subst this; simp [opTag]
            · split at h
              · simp only [List.mem_singleton] at h
                subst h; simp [opTag]
              · simp at h
          · simp only [List.mem_singleton] at h
            subst h; simp [opTag]
        · split at h
          · simp only [List.mem_singleton] at h
            subst h; simp [opTag]
          · simp at h
  · simp at h

theorem execOp_userWarned (op : Op) (s : PluginState) :
    (execOp op s).userWarned = s.userWarned := by
  cases op <;> rfl

theorem execList_userWarned (ops : List Op) :
    ∀ s : PluginState, (execList ops s).userWarned = s.userWarned := by
  induction ops with
  | nil => intro s; rfl
  | cons op rest ih =>
    intro s
    simp only [execList, List.foldl_cons]
    rw [show List.foldl (fun st op => execOp op st) (execOp op s) rest =
      execList rest (execOp op s) from rfl, ih, execOp_userWarned]

theorem closeStep_preserves (s : PluginState) :
    (closeStep s).1.userWarned = s.userWarned ∧
    (closeStep s).1.adcGainCal = s.adcGainCal ∧
    (closeStep s).1.adcOffsetCal = s.adcOffsetCal := by
  unfold closeStep
  cases s.board with
  | none => exact ⟨rfl, rfl, rfl⟩
  | some b =>
    by_cases h : b.closeRaises = true
    · simp [h]
    · simp only [Bool.not_eq_true] at h
      simp [h]

theorem openAttempt_preserves (p : OpenParams) (i : Nat) (s : PluginState) :
    (openAttempt p i s).1.userWarned = s.userWarned ∧
    (openAttempt p i s).1.adcGainCal = s.adcGainCal ∧
    (openAttempt p i s).1.adcOffsetCal = s.adcOffsetCal := by
  unfold openAttempt
  rcases closeStep_preserves s with ⟨h1, h2, h3⟩
  cases p.proxyResult i with
  | linkErrorAtOpen => exact ⟨h1, h2, h3⟩
  | linkErrorAfterOpen b => exact ⟨h1, h2, h3⟩
  | success b => exact ⟨h1, h2, h3⟩

theorem open_board_connection_preserves (p : OpenParams) (s : PluginState) :
    (open_board_connection p s).1.userWarned = s.userWarned ∧
    (open_board_connection p s).1.adcGainCal = s.adcGainCal ∧
    (open_board_connection p s).1.adcOffsetCal = s.adcOffsetCal := by
  unfold open_board_connection
  rcases openAttempt_preserves p 0 s with ⟨a1, a2, a3⟩
  rcases openAttempt_preserves p 1 (openAttempt p 0 s).1 with ⟨c1, c2, c3⟩
  by_cases h0 : (openAttempt p 0 s).2.2 = true
  · simp [h0, a1, a2, a3]
  · simp only [Bool.not_eq_true] at h0
    by_cases h1 : (openAttempt p 1 (openAttempt p 0 s).1).2.2 = true
    · simp [h0, h1, c1, c2, c3, a1, a2, a3]
    · simp only [Bool.not_eq_true] at h1
      simp [h0, h1, c1, c2, c3, a1, a2, a3]

theorem reset_userWarned (led1b led2b : ℚ) (s : PluginState) :
    (reset_board_state led1b led2b s).1.userWarned = false := by
  unfold reset_board_state
  cases hb : s.board with
  | none => simp [hb]
  | some b => simp [hb, execList_userWarned]

/-! ### Claims about the connection manager and board-state reset -/

/-- C4 counterexample: a successful reconnection (`proxyResult 0` yields a
fresh handle, so `open_board_connection` installs `b0`) leaves the stored
calibration values from the previous session untouched instead of
resetting them to empty. -/
theorem calibration_persists_across_reconnect_cex :
    (open_board_connection pOk sCal).1.board = some b0 ∧
    (open_board_connection pOk sCal).1.adcGainCal = some 3 ∧
    (open_board_connection pOk sCal).1.adcOffsetCal = some 4 := by
  decide

/-- C4 (amended): the stored CalibrationState is empty at plugin
construction and `open_board_connection` never modifies it, so after a
reconnection it retains whatever values were stored before; it is not
reset on reconnect. -/
theorem open_preserves_calibration (p : OpenParams) (s : PluginState) :
    (open_board_connection p s).1.adcGainCal = s.adcGainCal ∧
    (open_board_connection p s).1.adcOffsetCal = s.adcOffsetCal ∧
    initialPluginState.adcGainCal = none ∧
    initialPluginState.adcOffsetCal = none :=
  ⟨(open_board_connection_preserves p s).2.1,
   (open_board_connection_preserves p s).2.2, rfl, rfl⟩

/-- C5 counterexample: from a pristine state with no prior handle, both
attempts fail with a caught link error after `self.board` was assigned
(the version read raises), yet the board handle is not left unset - the
fresh dead proxy of the second attempt remains installed. -/
theorem open_failure_handle_cex :
    (pFailLate.proxyResult 0).failed = true ∧
    (pFailLate.proxyResult 1).failed = true ∧
    initialPluginState.board = none ∧
    (open_board_connection pFailLate initialPluginState).1.board = some b0 := by
  decide

theorem closeStep_trace (s : PluginState) :
    ∀ op ∈ (closeStep s).2, op = Op.closeBoard := by
  unfold closeStep
  cases s.board with
  | none => intro op h; simp at h
  | some b =>
    by_cases hc : b.closeRaises = true
    · simp [hc]
    · simp only [Bool.not_eq_true] at hc
      intro op h
      simp [hc] at h
      exact h

theorem closeStep_board (s : PluginState) :
    (closeStep s).1.board =
      (match s.board with
       | none => none
       | some b => if b.closeRaises then some b else none) := by
  unfold closeStep
  cases hsb : s.board with
  | none => simpa using hsb
  | some b =>
    by_cases hc : b.closeRaises = true
    · simp only [hc, if_true]
      exact hsb
    · simp only [Bool.not_eq_true] at hc
      simp [hc]

theorem openAttempt_failed (p : OpenParams) (i : Nat) (s : PluginState)
    (h : (p.proxyResult i).failed = true) :
    openAttempt p i s =
      ((match p.proxyResult i with
        | AttemptOutcome.linkErrorAfterOpen b =>
          { (closeStep s).1 with board := some b }
        | _ => (closeStep s).1),
       (closeStep s).2 ++ [Op.tryOpen, Op.sleepSec 1], false) := by
  unfold openAttempt
  cases hi : p.proxyResult i with
  | linkErrorAtOpen => rfl
  | linkErrorAfterOpen b => rfl
  | success b =>
    rw [hi] at h
    simp [AttemptOutcome.failed] at h

/-- C5 (amended): when every attempt fails with a caught link error,
`open_board_connection` makes exactly 2 attempts, sleeps 1 second after
each failure, emits the single "could not be established" warning, never
raises, and preserves the warned flag and the calibration state.  The
handle is left unset exactly when the final attempt's failure struck at
`SerialProxy()` construction and the handle remaining before that attempt
was absent or closed cleanly; otherwise a dead handle stays installed -
the fresh proxy whose post-assignment read failed, or a stale handle
whose `close()` raised. -/
theorem open_all_attempts_fail (p : OpenParams) (s : PluginState)
    (h0 : (p.proxyResult 0).failed = true)
    (h1 : (p.proxyResult 1).failed = true) :
    (∃ c0 c1 : List Op,
      (∀ op ∈ c0, op = Op.closeBoard) ∧ (∀ op ∈ c1, op = Op.closeBoard) ∧
      (open_board_connection p s).2 =
        c0 ++ [Op.tryOpen, Op.sleepSec 1] ++ c1 ++
          [Op.tryOpen, Op.sleepSec 1, Op.warnNoConnection]) ∧
    (open_board_connection p s).1.userWarned = s.userWarned ∧
    (open_board_connection p s).1.adcGainCal = s.adcGainCal ∧
    (open_board_connection p s).1.adcOffsetCal = s.adcOffsetCal ∧
    (∀ b, p.proxyResult 1 = AttemptOutcome.linkErrorAfterOpen b →
      (open_board_connection p s).1.board = some b) ∧
    (p.proxyResult 1 = AttemptOutcome.linkErrorAtOpen →
      (∀ b0, p.proxyResult 0 = AttemptOutcome.linkErrorAfterOpen b0 →
        (open_board_connection p s).1.board =
          (if b0.closeRaises then some b0 else none)) ∧
      (p.proxyResult 0 = AttemptOutcome.linkErrorAtOpen →
        (open_board_connection p s).1.board =
          (match s.board with
           | none => none
           | some b => if b.closeRaises then some b else none))) := by
  have ha0 := openAttempt_failed p 0 s h0
  have ha1 := openAttempt_failed p 1 (openAttempt p 0 s).1 h1
  have hfa0 : (openAttempt p 0 s).2.2 = false := by rw [ha0]
  have hfa1 : (openAttempt p 1 (openAttempt p 0 s).1).2.2 = false := by rw [ha1]
  have hopen : open_board_connection p s =
      ((openAttempt p 1 (openAttempt p 0 s).1).1,
       (openAttempt p 0 s).2.1 ++
         (openAttempt p 1 (openAttempt p 0 s).1).2.1 ++ [Op.warnNoConnection]) := by
    unfold open_board_connection
    simp [hfa0, hfa1]
  have hst0 : (openAttempt p 0 s).1.board =
      (match p.proxyResult 0 with
       | AttemptOutcome.linkErrorAfterOpen b => some b
       | _ => (closeStep s).1.board) := by
    rw [ha0]
    cases p.proxyResult 0 with
    | linkErrorAtOpen => rfl
    | linkErrorAfterOpen b => rfl
    | success b => rfl
  refine ⟨?_, (open_board_connection_preserves p s).1,
    (open_board_connection_preserves p s).2.1,
    (open_board_connection_preserves p s).2.2, ?_, ?_⟩
  · refine ⟨(closeStep s).2, (closeStep (openAttempt p 0 s).1).2,
      closeStep_trace s, closeStep_trace (openAttempt p 0 s).1, ?_⟩
    rw [hopen]
    have ht0 : (openAttempt p 0 s).2.1 =
        (closeStep s).2 ++ [Op.tryOpen, Op.sleepSec 1] := by rw [ha0]
    have ht1 : (openAttempt p 1 (openAttempt p 0 s).1).2.1 =
        (closeStep (openAttempt p 0 s).1).2 ++ [Op.tryOpen, Op.sleepSec 1] := by
      rw [ha1]
    rw [ht0, ht1]
    simp [List.append_assoc]
  · intro b hb1
    rw [hopen]
    rw [ha1, hb1]
  · intro hb1
    have hres : (open_board_connection p s).1.board =
        (closeStep (openAttempt p 0 s).1).1.board := by
      rw [hopen]
      rw [ha1, hb1]
    constructor
    · intro b0 hb0
      rw [hres, closeStep_board, hst0, hb0]
    · intro hb0
      rw [hres, closeStep_board, hst0, hb0, closeStep_board]
      cases hsb : s.board with
      | none => rfl
      | some b =>
        by_cases hc : b.closeRaises = true
        · simp [hc]
        · simp only [Bool.not_eq_true] at hc
          simp [hc]

/-- C5 witness: the amended theorem applied to the empty initial state
with both attempts failing at construction. -/
theorem open_all_attempts_fail_witness :
    (∃ c0 c1 : List Op,
      (∀ op ∈ c0, op = Op.closeBoard) ∧ (∀ op ∈ c1, op = Op.closeBoard) ∧
      (open_board_connection pFail initialPluginState).2 =
        c0 ++ [Op.tryOpen, Op.sleepSec 1] ++ c1 ++
          [Op.tryOpen, Op.sleepSec 1, Op.warnNoConnection]) ∧
    (open_board_connection pFail initialPluginState).1.userWarned =
      initialPluginState.userWarned ∧
    (open_board_connection pFail initialPluginState).1.adcGainCal =
      initialPluginState.adcGainCal ∧
    (open_board_connection pFail initialPluginState).1.adcOffsetCal =
      initialPluginState.adcOffsetCal ∧
    (∀ b, pFail.proxyResult 1 = AttemptOutcome.linkErrorAfterOpen b →
      (open_board_connection pFail initialPluginState).1.board = some b) ∧
    (pFail.proxyResult 1 = AttemptOutcome.linkErrorAtOpen →
      (∀ b0, pFail.proxyResult 0 = AttemptOutcome.linkErrorAfterOpen b0 →
        (open_board_connection pFail initialPluginState).1.board =
          (if b0.closeRaises then some b0 else none)) ∧
      (pFail.proxyResult 0 = AttemptOutcome.linkErrorAtOpen →
        (open_board_connection pFail initialPluginState).1.board =
          (match initialPluginState.board with
           | none => none
           | some b => if b.closeRaises then some b else none))) :=
  open_all_attempts_fail pFail initialPluginState rfl rfl

/-- C6 counterexample: with the user already warned and the board absent,
a full (failing) `open_board_connection` episode does not re-arm the
warning flag, and the next `apply_step_options` call emits no warning;
the flag is thus not re-armed by connection attempts themselves. -/
theorem warn_flag_not_rearmed_on_attempt_cex :
    sWarned.userWarned = true ∧ sWarned.board = none ∧
    (open_board_connection pFail sWarned).1.userWarned = true ∧
    (apply_step_options none opts0 env0
      (open_board_connection pFail sWarned).1).warnedNotConnected = false := by
  decide

/-- C6 (amended): while the board handle is unset, the first
`apply_step_options` call emits exactly one "not connected" warning and
sets `_user_warned`; every further call in the same disconnect episode
emits none and leaves the state untouched.  The flag is re-armed by
`reset_board_state` (which runs after successful connections), while
`open_board_connection` itself never changes it. -/
theorem not_connected_warning_once (fault : Option Nat) (opts : StepOptions)
    (env : ApplyEnv) (s : PluginState) (hb : s.board = none) :
    (s.userWarned = false →
      (apply_step_options fault opts env s).warnedNotConnected = true ∧
      (apply_step_options fault opts env s).state = { s with userWarned := true }) ∧
    (s.userWarned = true →
      (apply_step_options fault opts env s).warnedNotConnected = false ∧
      (apply_step_options fault opts env s).state = s) ∧
    (∀ q1 q2 : ℚ, ∀ s' : PluginState,
      (reset_board_state q1 q2 s').1.userWarned = false) ∧
    (∀ p : OpenParams, ∀ s' : PluginState,
      (open_board_connection p s').1.userWarned = s'.userWarned) := by
  refine ⟨?_, ?_, fun q1 q2 s' => reset_userWarned q1 q2 s',
    fun p s' => (open_board_connection_preserves p s').1⟩
  · intro hw
    simp [apply_step_options, hb, hw]
  · intro hw
    simp [apply_step_options, hb, hw]

/-- C6 witness: the amended theorem applied to the fresh disconnected
state. -/
theorem not_connected_warning_once_witness :
    (initialPluginState.userWarned = false →
      (apply_step_options none opts0 env0 initialPluginState).warnedNotConnected = true ∧
      (apply_step_options none opts0 env0 initialPluginState).state =
        { initialPluginState with userWarned := true }) ∧
    (initialPluginState.userWarned = true →
      (apply_step_options none opts0 env0 initialPluginState).warnedNotConnected = false ∧
      (apply_step_options none opts0 env0 initialPluginState).state =
        initialPluginState) ∧
    (∀ q1 q2 : ℚ, ∀ s' : PluginState,
      (reset_board_state q1 q2 s').1.userWarned = false) ∧
    (∀ p : OpenParams, ∀ s' : PluginState,
      (open_board_connection p s').1.userWarned = s'.userWarned) :=
  not_connected_warning_once none opts0 env0 initialPluginState rfl

/-- C7 counterexample: calling `reset_board_state` with no handle is not
free of side effects - it clears the `_user_warned` flag (src line 406
runs before the `board is None` check), so the state changes. -/
theorem reset_no_board_side_effect_cex :
    sWarned.board = none ∧ (reset_board_state 0 0 sWarned).1 ≠ sWarned := by
  decide

/-- C7 (amended): with no handle, `reset_board_state` issues no board
commands and raises nothing; its only side effect is clearing the
`_user_warned` flag, all other state being left unchanged. -/
theorem reset_no_board_frame (led1b led2b : ℚ) (s : PluginState)
    (hb : s.board = none) :
    reset_board_state led1b led2b s = ({ s with userWarned := false }, []) := by
  rcases s with ⟨sb, sw, sg, so⟩
  simp only at hb
  subst hb
  rfl

/-- C7 witness: the amended theorem applied to the warned disconnected
state. -/
theorem reset_no_board_frame_witness :
    reset_board_state 0 0 sWarned = ({ sWarned with userWarned := false }, []) :=
  reset_no_board_frame 0 0 sWarned rfl

theorem isZstageOp_false_of_tag_ne (op : Op) (h : opTag op ≠ 0) :
    isZstageOp op = false := by
  unfold isZstageOp
  simp [h]

theorem magnet_ops_no_raise (opts : StepOptions) (b : BoardState)
    (label : Option String) :
    ∀ op ∈ magnetOps opts b, op ≠ Op.inspectLabel ∨ label ≠ none := by
  intro op h
  left
  intro heq
  have := tag_magnetOps opts b op h
  rw [heq] at this
  simp [opTag] at this

/-- C8 (confirmed): in every fault-free apply call on a connected board,
the z-stage commands of the whole trace are exactly those of the magnet
branch: `zstage.up()` when the magnet is engaged; `move_to(1)` then
`home()`, in that order, when disengaging away from home; nothing
otherwise. -/
theorem magnet_branch_zstage_commands (opts : StepOptions) (env : ApplyEnv)
    (s : PluginState) (b : BoardState) (hb : s.board = some b) :
    (apply_step_options none opts env s).trace.filter isZstageOp =
      (if opts.magnet then [Op.zstageUp]
       else if b.zstageDown then []
       else [Op.zstageMoveTo 1, Op.zstageHome]) := by
  have hassoc : tryBody opts env b s.adcGainCal s.adcOffsetCal =
      magnetOps opts b ++
        (pumpOps opts env ++ pmtOps opts env s.adcGainCal s.adcOffsetCal) := by
    rw [tryBody, List.append_assoc]
  have hsplit := runOps_append_no_raise env.stepLabel (magnetOps opts b)
    (pumpOps opts env ++ pmtOps opts env s.adcGainCal s.adcOffsetCal) 0 s
    (magnet_ops_no_raise opts b env.stepLabel)
  obtain ⟨n, hn⟩ := runOps_trace_take none env.stepLabel
    (pumpOps opts env ++ pmtOps opts env s.adcGainCal s.adcOffsetCal)
    (0 + (magnetOps opts b).length) (execList (magnetOps opts b) s)
  have hmag_filter : (magnetOps opts b).filter isZstageOp = magnetOps opts b :=
    List.filter_eq_self.mpr (fun op h => by
      unfold isZstageOp
      rw [tag_magnetOps opts b op h]
      rfl)
  have hrest_filter :
      ((runOps none env.stepLabel
        (pumpOps opts env ++ pmtOps opts env s.adcGainCal s.adcOffsetCal)
        (0 + (magnetOps opts b).length)
        (execList (magnetOps opts b) s)).2.1).filter isZstageOp = [] := by
    rw [hn]
    refine List.filter_eq_nil_iff.mpr (fun op hop => ?_)
    have hmem := List.take_subset n _ hop
    rcases List.mem_append.mp hmem with h | h
    · simp [isZstageOp_false_of_tag_ne op (by rw [tag_pumpOps opts env op h]; omega)]
    · simp [isZstageOp_false_of_tag_ne op
        (tag_pmtOps_ne_zero opts env s.adcGainCal s.adcOffsetCal op h)]
  simp only [apply_step_options, hb, hassoc, hsplit]
  simp only [List.filter_cons, List.filter_append, hmag_filter, hrest_filter]
  simp [isZstageOp, opTag, magnetOps]

/-- C8 witness: the theorem at a connected state with the z-stage away
from home and the magnet disengaged. -/
theorem magnet_branch_zstage_commands_witness :
    (apply_step_options none opts1 env0 sUp).trace.filter isZstageOp =
      [Op.zstageMoveTo 1, Op.zstageHome] :=
  magnet_branch_zstage_commands opts1 env0 sUp bUp rfl

theorem pre_ops_tag_le_one (opts : StepOptions) (env : ApplyEnv)
    (b : BoardState) :
    ∀ op ∈ magnetOps opts b ++ pumpOps opts env, opTag op ≤ 1 := by
  intro op h
  rcases List.mem_append.mp h with h | h
  · rw [tag_magnetOps opts b op h]
    omega
  · rw [tag_pumpOps opts env op h]

theorem pre_ops_no_raise (opts : StepOptions) (env : ApplyEnv)
    (b : BoardState) (label : Option String) :
    ∀ op ∈ magnetOps opts b ++ pumpOps opts env,
      op ≠ Op.inspectLabel ∨ label ≠ none := by
  intro op h
  left
  intro heq
  have := pre_ops_tag_le_one opts env b op h
  rw [heq] at this
  simp [opTag] at this

/-- C10 (confirmed): with a connected board, PMT measurement enabled and
no step label available, the fault-free apply call reaches the PMT branch
(`MAX11210_begin` executes) and then raises at `step_label.lower()`; the
exception is caught (the call returns normally with `raised`), no
measurement is run, no series is recorded, and the
warn-and-proceed-uncalibrated path is never reached. -/
theorem missing_label_aborts_pmt (opts : StepOptions) (env : ApplyEnv)
    (s : PluginState) (b : BoardState) (hb : s.board = some b)
    (hm : opts.measurePmt = true) (hl : env.stepLabel = none) :
    (apply_step_options none opts env s).raised = true ∧
    Op.adcBegin ∈ (apply_step_options none opts env s).trace ∧
    Op.runMeasurement ∉ (apply_step_options none opts env s).trace ∧
    Op.recordSeries ∉ (apply_step_options none opts env s).trace ∧
    Op.warnMissingCalibration ∉ (apply_step_options none opts env s).trace := by
  have hpmt : pmtOps opts env s.adcGainCal s.adcOffsetCal =
      [Op.setLed1 false, Op.setLed2 false, Op.adcBegin, Op.inspectLabel] := by
    simp [pmtOps, hm, hl]
  have hbody : tryBody opts env b s.adcGainCal s.adcOffsetCal =
      (magnetOps opts b ++ pumpOps opts env) ++
        [Op.setLed1 false, Op.setLed2 false, Op.adcBegin, Op.inspectLabel] := by
    rw [tryBody, hpmt]
  have hsplit := runOps_append_no_raise env.stepLabel
    (magnetOps opts b ++ pumpOps opts env)
    [Op.setLed1 false, Op.setLed2 false, Op.adcBegin, Op.inspectLabel] 0 s
    (pre_ops_no_raise opts env b env.stepLabel)
  have hrun : ∀ (k : Nat) (st : PluginState),
      runOps none env.stepLabel
        [Op.setLed1 false, Op.setLed2 false, Op.adcBegin, Op.inspectLabel] k st =
      (execOp Op.adcBegin (execOp (Op.setLed2 false) (execOp (Op.setLed1 false) st)),
       [Op.setLed1 false, Op.setLed2 false, Op.adcBegin], true) := by
    intro k st
    simp [runOps, raisesAt, hl]
  have hno2 : ∀ op ∈ magnetOps opts b ++ pumpOps opts env, opTag op ≤ 1 :=
    pre_ops_tag_le_one opts env b
  have hmain : ∀ x : Op, opTag x = 2 → x ≠ Op.adcBegin →
      x ∉ (Op.readEnvironment ::
            (magnetOps opts b ++ pumpOps opts env ++
             [Op.setLed1 false, Op.setLed2 false, Op.adcBegin])) ++
          [Op.setLed1 b.led1On, Op.setLed2 b.led2On, Op.addStepLog] := by
    intro x hx hxne hmem
    rcases List.mem_append.mp hmem with h | h
    · rcases List.mem_cons.mp h with h | h
      · subst h; simp [opTag] at hx
      · rcases List.mem_append.mp h with h | h
        · have := hno2 _ h
          omega
        · rcases List.mem_cons.mp h with h | h
          · subst h; simp [opTag] at hx
          · rcases List.mem_cons.mp h with h | h
            · subst h; simp [opTag] at hx
            · rcases List.mem_cons.mp h with h | h
              · exact hxne h
              · simp at h
    · rcases List.mem_cons.mp h with h | h
      · subst h; simp [opTag] at hx
      · rcases List.mem_cons.mp h with h | h
        · subst h; simp [opTag] at hx
        · rcases List.mem_cons.mp h with h | h
          · subst h; simp [opTag] at hx
          · simp at h
  simp only [apply_step_options, hb, hbody, hsplit, hrun]
  refine ⟨by simp, by simp, ?_, ?_, ?_⟩
  · exact hmain Op.runMeasurement rfl (by decide)
  · exact hmain Op.recordSeries rfl (by decide)
  · exact hmain Op.warnMissingCalibration rfl (by decide)

/-- C10 witness: the theorem at a connected state with a label-less
environment. -/
theorem missing_label_aborts_pmt_witness :
    (apply_step_options none opts1 envNoLabel s1).raised = true ∧
    Op.adcBegin ∈ (apply_step_options none opts1 envNoLabel s1).trace ∧
    Op.runMeasurement ∉ (apply_step_options none opts1 envNoLabel s1).trace ∧
    Op.recordSeries ∉ (apply_step_options none opts1 envNoLabel s1).trace ∧
    Op.warnMissingCalibration ∉ (apply_step_options none opts1 envNoLabel s1).trace :=
  missing_label_aborts_pmt opts1 envNoLabel s1 b0 rfl rfl rfl

theorem execList_board_isSome (ops : List Op) :
    ∀ s : PluginState, (execList ops s).board.isSome = s.board.isSome := by
  induction ops with
  | nil => intro s; rfl
  | cons op rest ih =>
    intro s
    simp only [execList, List.foldl_cons]
    rw [show List.foldl (fun st op => execOp op st) (execOp op s) rest =
      execList rest (execOp op s) from rfl, ih, execOp_board_isSome]

/-- C1 counterexample: a concrete apply call on a connected board with PMT
measurement enabled in which the pump branch raises (fault at position 1,
the `pump_activate()` of the manual pump branch, right after
`pump_frequency_set`), yet the PMT branch is never attempted: not even
its first ADC operation appears in the trace.  The single `try:` around
all branches (src lines 491-660) makes the branches dependent. -/
theorem pump_failure_blocks_pmt_cex :
    opts1.measurePmt = true ∧
    (apply_step_options (some 1) opts1 env0 s1).raised = true ∧
    Op.pumpFrequencySet 50 ∈ (apply_step_options (some 1) opts1 env0 s1).trace ∧
    Op.adcBegin ∉ (apply_step_options (some 1) opts1 env0 s1).trace := by
  decide

/-- C1 (amended): a pump-branch exception aborts the remainder of the
`try:` body, so the PMT branch is not attempted in the same apply call;
the exception is caught, and the `finally:` LED restoration still runs.
(`k` ranges over the pump-branch positions of the body; the fault model
raises at position `k`.) -/
theorem pump_failure_aborts_pmt (opts : StepOptions) (env : ApplyEnv)
    (s : PluginState) (b : BoardState) (k : Nat) (hb : s.board = some b)
    (hm : opts.measurePmt = true)
    (hk1 : (magnetOps opts b).length ≤ k)
    (hk2 : k < (magnetOps opts b ++ pumpOps opts env).length) :
    (apply_step_options (some k) opts env s).raised = true ∧
    Op.adcBegin ∉ (apply_step_options (some k) opts env s).trace ∧
    (apply_step_options (some k) opts env s).state.board.map
      (fun x => x.led1On) = some b.led1On ∧
    (apply_step_options (some k) opts env s).state.board.map
      (fun x => x.led2On) = some b.led2On := by
  have hkle : k ≤ (magnetOps opts b ++ pumpOps opts env).length := le_of_lt hk2
  have hlen : ((magnetOps opts b ++ pumpOps opts env).take k).length = k := by
    rw [List.length_take]
    omega
  have hkbody : k < (tryBody opts env b s.adcGainCal s.adcOffsetCal).length := by
    rw [tryBody]
    rw [show magnetOps opts b ++ pumpOps opts env ++
        pmtOps opts env s.adcGainCal s.adcOffsetCal =
      (magnetOps opts b ++ pumpOps opts env) ++
        pmtOps opts env s.adcGainCal s.adcOffsetCal from rfl]
    rw [List.length_append]
    omega
  have htake : (tryBody opts env b s.adcGainCal s.adcOffsetCal).take k =
      (magnetOps opts b ++ pumpOps opts env).take k := by
    rw [tryBody]
    exact List.take_append_of_le_length hkle
  have hsplit : tryBody opts env b s.adcGainCal s.adcOffsetCal =
      (magnetOps opts b ++ pumpOps opts env).take k ++
        ((tryBody opts env b s.adcGainCal s.adcOffsetCal).get ⟨k, hkbody⟩ ::
          (tryBody opts env b s.adcGainCal s.adcOffsetCal).drop (k + 1)) := by
    conv_lhs => rw [← List.take_append_drop k
      (tryBody opts env b s.adcGainCal s.adcOffsetCal)]
    rw [htake, List.drop_eq_getElem_cons hkbody]
    rfl
  have hno : ∀ op ∈ (magnetOps opts b ++ pumpOps opts env).take k,
      op ≠ Op.inspectLabel ∨ env.stepLabel ≠ none :=
    fun op hop => pre_ops_no_raise opts env b env.stepLabel op
      (List.take_subset k _ hop)
  have hfault := runOps_fault_at env.stepLabel
    ((magnetOps opts b ++ pumpOps opts env).take k)
    ((tryBody opts env b s.adcGainCal s.adcOffsetCal).get ⟨k, hkbody⟩)
    ((tryBody opts env b s.adcGainCal s.adcOffsetCal).drop (k + 1)) 0 s hno
  rw [hlen] at hfault
  rw [← hsplit] at hfault
  rw [Nat.zero_add] at hfault
  have hmem : Op.adcBegin ∉
      (Op.readEnvironment :: (magnetOps opts b ++ pumpOps opts env).take k) ++
        [Op.setLed1 b.led1On, Op.setLed2 b.led2On, Op.addStepLog] := by
    intro hmem
    rcases List.mem_append.mp hmem with h | h
    · rcases List.mem_cons.mp h with h | h
      · simp at h
      · have := pre_ops_tag_le_one opts env b _ (List.take_subset k _ h)
        simp [opTag] at this
    · simp at h
  have hsome : ((execList ((magnetOps opts b ++ pumpOps opts env).take k) s)).board.isSome = true := by
    rw [execList_board_isSome, hb]
    rfl
  have hres := led_after_restore _ b.led1On b.led2On hsome
  simp only [apply_step_options, hb, hfault]
  exact ⟨trivial, hmem, hres.1, hres.2⟩

/-- C1 witness: the amended theorem at the concrete state of the
counterexample (fault at the pump activation, position 1; the magnet
branch is empty there). -/
theorem pump_failure_aborts_pmt_witness :
    (apply_step_options (some 1) opts1 env0 s1).raised = true ∧
    Op.adcBegin ∉ (apply_step_options (some 1) opts1 env0 s1).trace ∧
    (apply_step_options (some 1) opts1 env0 s1).state.board.map
      (fun x => x.led1On) = some true ∧
    (apply_step_options (some 1) opts1 env0 s1).state.board.map
      (fun x => x.led2On) = some false :=
  pump_failure_aborts_pmt opts1 env0 s1 b0 1 rfl rfl (by decide) (by decide)

/-! ### Claim about the auto-pump fill loop -/

theorem fillLoopAux_spec (caps : Nat → ℚ) (dur : Nat → Nat) (maxCp : ℚ)
    (hdur : ∀ k, 1 ≤ dur k) :
    ∀ (fuel i : Nat) (p : Bool), 5000 < elapsedAt dur i + fuel →
    ∃ r, fillLoopAux caps dur maxCp fuel i (capAt caps i) (elapsedAt dur i) p
        = some r ∧
      i ≤ r.iters ∧
      r.cap = capAt caps r.iters ∧
      r.elapsed = elapsedAt dur r.iters ∧
      (∀ j, i ≤ j → j < r.iters → capAt caps j < maxCp ∧ elapsedAt dur j < 5000) ∧
      ¬(capAt caps r.iters < maxCp ∧ elapsedAt dur r.iters < 5000) ∧
      (r.pump = false ∨ (r.iters = i ∧ r.pump = p)) := by
  intro fuel
  induction fuel with
  | zero =>
    intro i p hfuel
    have hstop : ¬(capAt caps i < maxCp ∧ elapsedAt dur i < 5000) := by
      rintro ⟨_, h2⟩
      omega
    refine ⟨⟨i, capAt caps i, elapsedAt dur i, p, []⟩, ?_, le_refl i, rfl, rfl,
      ?_, hstop, Or.inr ⟨rfl, rfl⟩⟩
    · unfold fillLoopAux
      rw [if_neg hstop]
    · intro j h1 h2
      have h2a : j < i := h2
      omega
  | succ fuel ih =>
    intro i p hfuel
    by_cases hc : capAt caps i < maxCp ∧ elapsedAt dur i < 5000
    · have hfuel' : 5000 < elapsedAt dur (i + 1) + fuel := by
        have h1 := hdur i
        have h2 : elapsedAt dur (i + 1) = elapsedAt dur i + dur i := rfl
        omega
      obtain ⟨r, hr, hi, hcap, hel, hmin, hexit, hpump⟩ := ih (i + 1) false hfuel'
      have havg : avgAt caps i = capAt caps (i + 1) := rfl
      have ht : elapsedAt dur i + dur i = elapsedAt dur (i + 1) := rfl
      refine ⟨{ r with ops := Op.pumpActivate :: Op.measureCapAvg i ::
          Op.pumpDeactivate :: r.ops }, ?_, ?_, hcap, hel, ?_, hexit, ?_⟩
      · unfold fillLoopAux
        rw [if_pos hc, havg, ht, hr]
        rfl
      · show i ≤ r.iters
        omega
      · intro j h1 h2
        have h2a : j < r.iters := h2
        rcases Nat.eq_or_lt_of_le h1 with h | h
        · subst h
          exact hc
        · exact hmin j h h2a
      · rcases hpump with h | ⟨_, h⟩
        · exact Or.inl h
        · exact Or.inl h
    · refine ⟨⟨i, capAt caps i, elapsedAt dur i, p, []⟩, ?_, le_refl i, rfl, rfl,
        ?_, hc, Or.inr ⟨rfl, rfl⟩⟩
      · unfold fillLoopAux
        rw [if_neg hc]
      · intro j h1 h2
        have h2a : j < i := h2
        omega

/-- C9 (confirmed): provided each loop iteration consumes at least 1 ms
of wall clock and the target capacitance is positive, the fill loop
always terminates (the 5001 fuel bound is never hit); it runs at least
one iteration, exits exactly at the first guard check at which the
running 10-sample average has reached the target or 5 s (5000 ms) have
elapsed - every earlier check passed - and the pump is deactivated when
it returns. -/
theorem fill_loop_terminates_pump_off (caps : Nat → ℚ) (dur : Nat → Nat)
    (maxCp : ℚ) (p0 : Bool) (hdur : ∀ k, 1 ≤ dur k) (hpos : 0 < maxCp) :
    ∃ r, fillLoop caps dur maxCp p0 = some r ∧
      1 ≤ r.iters ∧ r.pump = false ∧
      r.cap = capAt caps r.iters ∧ r.elapsed = elapsedAt dur r.iters ∧
      (∀ j < r.iters, capAt caps j < maxCp ∧ elapsedAt dur j < 5000) ∧
      ¬(r.cap < maxCp ∧ r.elapsed < 5000) := by
  have h0 : (5000 : Nat) < elapsedAt dur 0 + 5001 := by
    simp [elapsedAt]
  obtain ⟨r, hr, _, hcap, hel, hmin, hexit, hpump⟩ :=
    fillLoopAux_spec caps dur maxCp hdur 5001 0 p0 h0
  have hiters : 1 ≤ r.iters := by
    by_contra h
    have hz : r.iters = 0 := by omega
    rw [hz] at hexit
    exact hexit ⟨by simpa [capAt] using hpos, by simp [elapsedAt]⟩
  have hpump' : r.pump = false := by
    rcases hpump with h | ⟨h, _⟩
    · exact h
    · omega
  refine ⟨r, ?_, hiters, hpump', hcap, hel, fun j hj => hmin j (Nat.zero_le j) hj, ?_⟩
  · rw [fillLoop]
    exact hr
  · rw [hcap, hel]
    exact hexit

/-- C9 witness: the theorem for a capacitance source that never reaches
the target (all samples 0, target 1) with 1 s iterations. -/
theorem fill_loop_terminates_pump_off_witness :
    ∃ r, fillLoop (fun _ => 0) (fun _ => 1000) 1 true = some r ∧
      1 ≤ r.iters ∧ r.pump = false ∧
      r.cap = capAt (fun _ => 0) r.iters ∧
      r.elapsed = elapsedAt (fun _ => 1000) r.iters ∧
      (∀ j < r.iters, capAt (fun _ => 0) j < 1 ∧
        elapsedAt (fun _ => 1000) j < 5000) ∧
      ¬(r.cap < 1 ∧ r.elapsed < 5000) :=
  fill_loop_terminates_pump_off (fun _ => 0) (fun _ => 1000) 1 true
    (fun k => by norm_num) (by norm_num)

/-! ### Claim about the gain search (modelled from the spec) -/

theorem selectGainAux_some (avg : Nat → ℚ) :
    ∀ (fuel k g : Nat), 1 ≤ g → g ≤ 2 ^ k → k < fuel →
    ∃ p, selectGainAux avg fuel g = some p := by
  intro fuel
  induction fuel with
  | zero =>
    intro k g _ _ hk
    omega
  | succ fuel ih =>
    intro k g hg1 hgk hk
    by_cases h1 : avg g < saturationThreshold
    · exact ⟨(g, false), by unfold selectGainAux; rw [if_pos h1]⟩
    · by_cases h2 : g ≤ 1
      · refine ⟨(g, decide ((2 ^ 24 - 1 : ℚ) ≤ avg g)), ?_⟩
        unfold selectGainAux
        rw [if_neg h1, if_pos h2]
      · have hg2 : 2 ≤ g := by omega
        rcases k with _ | k'
        · simp at hgk
          omega
        · have hdiv1 : 1 ≤ g / 2 := by omega
        
          have hdiv2 : g / 2 ≤ 2 ^ k' := by
            have h3 : g ≤ 2 * 2 ^ k' := by
              rw [pow_succ] at hgk
              omega
            have h4 : g / 2 ≤ 2 * 2 ^ k' / 2 := Nat.div_le_div_right h3
            rwa [Nat.mul_div_cancel_left _ (by norm_num)] at h4
          obtain ⟨p, hp⟩ := ih k' (g / 2) hdiv1 hdiv2 (by omega)
          refine ⟨p, ?_⟩
          unfold selectGainAux
          rw [if_neg h1, if_neg h2]
          exact hp

theorem selectGainAux_result (avg : Nat → ℚ) :
    ∀ (fuel g : Nat) (p : Nat × Bool), 1 ≤ g →
      selectGainAux avg fuel g = some p →
      ∃ k, p.1 = g / 2 ^ k ∧ 1 ≤ p.1 := by
  intro fuel
  induction fuel with
  | zero =>
    intro g p _ hp
    simp [selectGainAux] at hp
  | succ fuel ih =>
    intro g p hg1 hp
    unfold selectGainAux at hp
    by_cases h1 : avg g < saturationThreshold
    · rw [if_pos h1] at hp
      simp only [Option.some.injEq] at hp
      subst hp
      exact ⟨0, by simp, hg1⟩
    · rw [if_neg h1] at hp
      by_cases h2 : g ≤ 1
      · rw [if_pos h2] at hp
        simp only [Option.some.injEq] at hp
        subst hp
        exact ⟨0, by simp, hg1⟩
      · rw [if_neg h2] at hp
        have hdiv1 : 1 ≤ g / 2 := by omega
        obtain ⟨k, hk, hge⟩ := ih (g / 2) p hdiv1 hp
        refine ⟨k + 1, ?_, hge⟩
        rw [hk, Nat.div_div_eq_div_mul]
        congr 1
        rw [pow_succ]
        omega

theorem selectGainHalvings_le (avg : Nat → ℚ) :
    ∀ (fuel g k : Nat), g ≤ 2 ^ k → selectGainHalvings avg fuel g ≤ k := by
  intro fuel
  induction fuel with
  | zero =>
    intro g k _
    simp [selectGainHalvings]
  | succ fuel ih =>
    intro g k hgk
    unfold selectGainHalvings
    by_cases h1 : avg g < saturationThreshold
    · rw [if_pos h1]
      omega
    · rw [if_neg h1]
      by_cases h2 : g ≤ 1
      · rw [if_pos h2]
        omega
      · rw [if_neg h2]
        rcases k with _ | k'
        · simp at hgk
          omega
        · have hdiv2 : g / 2 ≤ 2 ^ k' := by
            have h3 : g ≤ 2 * 2 ^ k' := by
              rw [pow_succ] at hgk
              omega
            have h4 : g / 2 ≤ 2 * 2 ^ k' / 2 := Nat.div_le_div_right h3
            rwa [Nat.mul_div_cancel_left _ (by norm_num)] at h4
          have := ih (g / 2) k' hdiv2
          omega

/-- C3 (confirmed, modelled from the spec): the gain search, started at
gain 16, always returns a result (the loop terminates), its gain lies in
{1, 2, 4, 8, 16}, it performs at most 4 halving iterations, and on every
iteration whose 10-read average is at or above the saturation threshold
with gain still above 1 it halves the gain and continues. -/
theorem select_gain_spec (reads : Nat → List Nat) :
    (∃ p, select_gain reads = some p ∧
      (p.1 = 1 ∨ p.1 = 2 ∨ p.1 = 4 ∨ p.1 = 8 ∨ p.1 = 16)) ∧
    selectGainHalvings (readsAvg reads) 5 16 ≤ 4 ∧
    (∀ fuel g, saturationThreshold ≤ readsAvg reads g → 1 < g →
      selectGainAux (readsAvg reads) (fuel + 1) g =
        selectGainAux (readsAvg reads) fuel (g / 2)) := by
  refine ⟨?_, selectGainHalvings_le (readsAvg reads) 5 16 4 (by norm_num), ?_⟩
  · obtain ⟨p, hp⟩ := selectGainAux_some (readsAvg reads) 5 4 16
      (by norm_num) (by norm_num) (by norm_num)
    obtain ⟨k, hk, hge⟩ := selectGainAux_result (readsAvg reads) 5 16 p
      (by norm_num) hp
    have hk4 : k ≤ 4 := by
      by_contra hgt
      have h5 : (2 : Nat) ^ 5 ≤ 2 ^ k := Nat.pow_le_pow_right (by norm_num) (by omega)
      have : (16 : Nat) / 2 ^ k = 0 := Nat.div_eq_of_lt (by omega)
      omega
    refine ⟨p, hp, ?_⟩
    interval_cases k <;> simp_all
  · intro fuel g hsat hg
    conv_lhs => rw [selectGainAux]
    rw [if_neg (not_lt.mpr hsat), if_neg (show ¬ g ≤ 1 by omega)]

/-- C3 witness: the theorem at the saturated read stream (every gain sees
ten full-scale reads), whose saturation hypothesis for the halving
equation at gain 16 is discharged concretely. -/
theorem select_gain_spec_witness :
    (∃ p, select_gain readsSat = some p ∧
      (p.1 = 1 ∨ p.1 = 2 ∨ p.1 = 4 ∨ p.1 = 8 ∨ p.1 = 16)) ∧
    selectGainHalvings (readsAvg readsSat) 5 16 ≤ 4 ∧
    selectGainAux (readsAvg readsSat) 5 16 =
      selectGainAux (readsAvg readsSat) 4 8 := by
  have h := select_gain_spec readsSat
  have hsat : saturationThreshold ≤ readsAvg readsSat 16 := by
    unfold readsAvg readsSat saturationThreshold
    simp [List.map_replicate, List.sum_replicate]
    norm_num
  exact ⟨h.1, h.2.1, h.2.2 4 16 hsat (by norm_num)⟩

/-! ### Claims about `apply_step_options` -/

/-- C2 (confirmed): for any apply call on a connected board with PMT
measurement enabled, whatever happens inside the `try:` body (any single
injected fault at any position, or the intrinsic label fault), the
`finally:` clause restores the on/off state of LED 1 and LED 2 to the
values read immediately before the call. -/
theorem led_state_restored (fault : Option Nat) (opts : StepOptions)
    (env : ApplyEnv) (s : PluginState) (b : BoardState)
    (hb : s.board = some b) (hm : opts.measurePmt = true) :
    (apply_step_options fault opts env s).state.board.map
      (fun x => x.led1On) = some b.led1On ∧
    (apply_step_options fault opts env s).state.board.map
      (fun x => x.led2On) = some b.led2On := by
  have hsome : ((runOps fault env.stepLabel
      (tryBody opts env b s.adcGainCal s.adcOffsetCal) 0 s).1).board.isSome = true := by
    rw [runOps_board_isSome, hb]
    rfl
  have hres := led_after_restore _ b.led1On b.led2On hsome
  simp only [apply_step_options, hb]
  exact hres

/-- C2 witness: the theorem at a concrete connected state (LED 1 on,
LED 2 off) with a fault injected at position 3. -/
theorem led_state_restored_witness :
    (apply_step_options (some 3) opts1 env0 s1).state.board.map
      (fun x => x.led1On) = some true ∧
    (apply_step_options (some 3) opts1 env0 s1).state.board.map
      (fun x => x.led2On) = some false :=
  led_state_restored (some 3) opts1 env0 s1 b0 rfl rfl
